import Mathlib

/-!
# tgfwd: forward table, forwarding pipeline, dispatch filter and photo selection

A shallow embedding of `tgfwd.go` (functions `Run`, `fromPeer`, `toInputPeer`,
`downloadMedia` and the closures `onMessage` and the two dispatcher handlers).

* Go `int64` values are integers; the only arithmetic on them is the negation
  in `Run`, which wraps (see `negInt64`).
* Go maps are association lists with unique keys (`GoMap`).
* A Go pointer to a freshly built peer struct is the pair of its allocation
  index and the struct it points to (`InputPeerClass`); two such values are
  equal exactly when they are the same object.
* Network operations are an oracle (`Network`) and every invocation is
  recorded in a call log, so that "how many calls were issued" is a property
  of a list. The library function `html.String`, which builds the caption of
  a media send, is a field of the same oracle. Logging through `log.Println`
  and `debug` is not recorded.
* The directory `chats` is any map in the properties of the finished table;
  where a property depends on what `Run` can put in it, the directory is the
  one built from a dialog listing (`directory`).
-/

namespace Tgfwd

/-! ## Machine integers -/

/-- Two's-complement wrap of an integer into the `int64` range. -/
def wrapInt64 (v : Int) : Int := (v + 2 ^ 63) % 2 ^ 64 - 2 ^ 63

/-- Membership in the `int64` range. -/
def isInt64 (v : Int) : Prop := -(2 ^ 63) ≤ v ∧ v < 2 ^ 63

instance (v : Int) : Decidable (isInt64 v) := by unfold isInt64; infer_instance

/-- Go's unary minus on `int64`: the result wraps. -/
def negInt64 (x : Int) : Int := wrapInt64 (-x)

/-- The "Normalize IDs" step in the loop of `Run`:
`if id < 0 { id = -id }`. -/
def normalizeID (x : Int) : Int := if x < 0 then negInt64 x else x

/-! ## Go maps keyed by `int64` -/

/-- A Go `map[int64]V`: an association list whose keys are kept distinct by
`GoMap.set`. -/
abbrev GoMap (V : Type) := List (Int × V)

/-- The comma-ok lookup `v, ok := m[k]`. -/
def GoMap.get {V : Type} : GoMap V → Int → Option V
  | [], _ => none
  | (k', v) :: m, k => if k' = k then some v else GoMap.get m k

/-- Removal of a key. -/
def GoMap.erase {V : Type} : GoMap V → Int → GoMap V
  | [], _ => []
  | (k', v) :: m, k => if k' = k then GoMap.erase m k else (k', v) :: GoMap.erase m k

/-- The assignment `m[k] = v`: insert or overwrite. -/
def GoMap.set {V : Type} (m : GoMap V) (k : Int) (v : V) : GoMap V :=
  (k, v) :: GoMap.erase m k

/-- The keys of a map. -/
def GoMap.keys {V : Type} (m : GoMap V) : List Int := m.map Prod.fst

/-! ## Conversations and peers -/

/-- The part of `tg.FullChat` that `Run` and `toInputPeer` read: `TypeName()`
and `GetID()` (`GetTitle()` only feeds debug output). -/
structure FullChat where
  typeName : String
  id : Int
deriving DecidableEq, Repr

/-- The peer structs built in `toInputPeer` (only the id field is set). -/
inductive InputPeer where
  | inputPeerUser (userID : Int)
  | inputPeerChat (chatID : Int)
  | inputPeerChannel (channelID : Int)
deriving DecidableEq, Repr

/-- A `tg.InputPeerClass` value holding a pointer to a peer struct: `addr`
is the allocation index of the struct, `val` the struct itself. -/
structure InputPeerClass where
  addr : Nat
  val : InputPeer
deriving DecidableEq, Repr

/-- Errors returned by the code under study.
* `atLeastOneForward`: `"tgfwd: at least one forward is required"`;
* `couldntFindChat id`: `"tgfwd: couldn't find chat %d"`;
* `invalidType t`: `"invalid type: %s"`;
* `constraint`: the error of `peer.OnlyUser`, `peer.OnlyChat`, `peer.OnlyChannel`;
* `invalidPeer`: `"invalid peer: %T"`;
* `couldntFindPhotoSize`: `"couldn't find photo size"`;
* `stream e`: an error returned by the download stream. -/
inductive Error where
  | atLeastOneForward
  | couldntFindChat (id : Int)
  | invalidType (typeName : String)
  | constraint
  | invalidPeer
  | couldntFindPhotoSize
  | stream (e : String)
deriving DecidableEq, Repr

/-- The wrapper `peer.OnlyUser`: the promised peer is returned when it is a
user peer and rejected otherwise. -/
def onlyUser (p : InputPeerClass) : Except Error InputPeerClass :=
  match p.val with
  | .inputPeerUser _ => .ok p
  | _ => .error .constraint

/-- The wrapper `peer.OnlyChat`. -/
def onlyChat (p : InputPeerClass) : Except Error InputPeerClass :=
  match p.val with
  | .inputPeerChat _ => .ok p
  | _ => .error .constraint

/-- The wrapper `peer.OnlyChannel`. -/
def onlyChannel (p : InputPeerClass) : Except Error InputPeerClass :=
  match p.val with
  | .inputPeerChannel _ => .ok p
  | _ => .error .constraint

/-- The function `toInputPeer`; `addr` is the index given to the struct it
allocates. -/
def toInputPeer (addr : Nat) (chat : FullChat) : Except Error InputPeerClass :=
  if chat.typeName = "user" then
    onlyUser ⟨addr, .inputPeerUser chat.id⟩
  else if chat.typeName = "chat" then
    onlyChat ⟨addr, .inputPeerChat chat.id⟩
  else if chat.typeName = "channel" then
    onlyChannel ⟨addr, .inputPeerChannel chat.id⟩
  else
    .error (.invalidType chat.typeName)

/-- The function `fromInputPeer`. -/
def fromInputPeer (p : InputPeerClass) : Int :=
  match p.val with
  | .inputPeerUser userID => userID
  | .inputPeerChannel channelID => channelID
  | .inputPeerChat chatID => chatID

/-! ## The conversation directory (`Run`, "List dialogs") -/

/-- The chats of a dialog listing, with the id of each: `chat` and `channel`
are the two that have full data, the other three do not. -/
inductive ChatClass where
  | chatEmpty (id : Int)
  | chat (id : Int)
  | chatForbidden (id : Int)
  | channel (id : Int)
  | channelForbidden (id : Int)
deriving DecidableEq, Repr

/-- The method `AsFull` of a listed chat; `TypeName()` of the result is
`"chat"` for a chat and `"channel"` for a channel. -/
def ChatClass.asFull : ChatClass → Option FullChat
  | .chat id => some ⟨"chat", id⟩
  | .channel id => some ⟨"channel", id⟩
  | _ => none

/-- The loop `for _, c := range dialogs.GetChats()` of `Run`, filling the
map `chats`. -/
def listChats : List ChatClass → GoMap FullChat → GoMap FullChat
  | [], chats => chats
  | c :: cs, chats =>
    match c.asFull with
    | none => listChats cs chats
    | some full => listChats cs (chats.set full.id full)

/-- The map `chats` of `Run` once the dialogs are listed; it is empty before
the loop. -/
def directory (dialogs : List ChatClass) : GoMap FullChat := listChats dialogs []

/-! ## Forward table construction (`Run`, "Generate forwards") -/

/-- The variables mutated by the loop: the outer map `forwards`, the cache
`peers`, and the log of the arguments of every `toInputPeer` invocation. -/
structure BuildState where
  forwards : GoMap InputPeerClass
  peers : GoMap InputPeerClass
  calls : List FullChat
deriving DecidableEq, Repr

/-- The state before the loop: both maps empty, no resolver call made. -/
def BuildState.init : BuildState := ⟨[], [], []⟩

/-- One iteration of the loop over `cfg.Forwards`. The second component is
the error the iteration returns with, if any; the first is the state of the
variables at that point. -/
def forwardStep (chats : GoMap FullChat) (st : BuildState) (f : Int × Int) :
    BuildState × Option Error :=
  let fromID := normalizeID f.1
  let toID := normalizeID f.2
  match chats.get fromID with
  | none => (st, some (.couldntFindChat fromID))
  | some _ =>
    match chats.get toID with
    | none => (st, some (.couldntFindChat toID))
    | some toChat =>
      match st.peers.get toID with
      | some peer => ({ st with forwards := st.forwards.set fromID peer }, none)
      | none =>
        match toInputPeer st.calls.length toChat with
        | .error e => ({ st with calls := st.calls ++ [toChat] }, some e)
        | .ok peer =>
          ({ forwards := st.forwards.set fromID peer,
             peers := st.peers.set toID peer,
             calls := st.calls ++ [toChat] }, none)

/-- The loop `for _, f := range cfg.Forwards`, stopping at the first
iteration that returns an error. -/
def generateForwards (chats : GoMap FullChat) :
    List (Int × Int) → BuildState → BuildState × Option Error
  | [], st => (st, none)
  | f :: fs, st =>
    match forwardStep chats st f with
    | (st', some e) => (st', some e)
    | (st', none) => generateForwards chats fs st'

/-- What the callback of `client.Run` leaves behind once the table loop and
the handler registration are over. -/
structure RunState where
  build : BuildState
  handlersRegistered : Bool
  err : Option Error
deriving DecidableEq, Repr

/-- The function `Run` on the rules `cfg.Forwards`, for a session whose
credentials are set, that is authorised and whose dialog listing gave the
directory `chats`: an empty rule list is refused before anything else; then
the table loop runs and an error of the loop is returned at once; otherwise
both dispatcher handlers are registered. -/
def runSetup (chats : GoMap FullChat) (rules : List (Int × Int)) : RunState :=
  if rules.length = 0 then
    { build := BuildState.init, handlersRegistered := false,
      err := some .atLeastOneForward }
  else
    match generateForwards chats rules BuildState.init with
    | (st, some e) => { build := st, handlersRegistered := false, err := some e }
    | (st, none) => { build := st, handlersRegistered := true, err := none }

/-! ## Messages and media -/

/-- The message's `PeerID`: the three peer kinds `fromPeer` recognises, and
`other` for anything else (a nil peer included). -/
inductive PeerClass where
  | peerUser (userID : Int)
  | peerChannel (channelID : Int)
  | peerChat (chatID : Int)
  | other
deriving DecidableEq, Repr

/-- The function `fromPeer`. -/
def fromPeer (p : PeerClass) : Except Error Int :=
  match p with
  | .peerUser userID => .ok userID
  | .peerChannel channelID => .ok channelID
  | .peerChat chatID => .ok chatID
  | .other => .error .invalidPeer

/-- The size descriptors of a photo. Only `photoSize` is the concrete
`*tg.PhotoSize` that the type assertion in `downloadMedia` accepts; each
descriptor carries its `Type` field. -/
inductive PhotoSizeClass where
  | photoSizeEmpty (type : String)
  | photoSize (type : String) (w h size : Int)
  | photoCachedSize (type : String)
  | photoStrippedSize (type : String)
  | photoSizeProgressive (type : String)
  | photoPathSize (type : String)
deriving DecidableEq, Repr

/-- The fields of a non-empty `tg.Photo` read by `downloadMedia`. -/
structure Photo where
  id : Int
  accessHash : Int
  fileReference : List Nat
  sizes : List PhotoSizeClass
deriving DecidableEq, Repr

/-- The photo of a photo attachment: empty or not. -/
inductive PhotoClass where
  | photoEmpty (id : Int)
  | photo (p : Photo)
deriving DecidableEq, Repr

/-- The method `AsNotEmpty` of a photo. -/
def PhotoClass.asNotEmpty : PhotoClass → Option Photo
  | .photoEmpty _ => none
  | .photo p => some p

/-- The attachment of a message: a photo attachment with its photo field
set, or one of the other attachment kinds, which `downloadMedia` does not
tell apart. A photo attachment whose photo field is unset is not covered:
on it the method call `v.Photo.AsNotEmpty()` does not return. -/
inductive MessageMediaClass where
  | messageMediaPhoto (photo : PhotoClass)
  | otherMedia
deriving DecidableEq, Repr

/-- The fields of `tg.Message` read by the handlers and the pipeline. -/
structure Message where
  out : Bool
  peerID : PeerClass
  message : String
  media : Option MessageMediaClass
deriving DecidableEq, Repr

/-- The payload of a new-message update: a standard message or one of the two
other message shapes. -/
inductive MessageClass where
  | message (m : Message)
  | messageEmpty
  | messageService
deriving DecidableEq, Repr

/-- The file location built in `downloadMedia`. -/
structure InputPhotoFileLocation where
  id : Int
  accessHash : Int
  fileReference : List Nat
  thumbSize : String
deriving DecidableEq, Repr

/-- The handle returned by a successful upload. -/
abbrev InputFile := Nat

/-- A formatting entity of a styled text: its kind and the span it covers. -/
structure MessageEntity where
  kind : String
  offset : Nat
  length : Nat
deriving DecidableEq, Repr

/-- A styled text option, given by what it yields when the sender applies it:
a text with its entities, or an error. -/
inductive StyledTextOption where
  | styled (text : String) (entities : List MessageEntity)
  | invalid (e : String)
deriving DecidableEq, Repr

/-- The network operations invoked by the pipeline. -/
inductive Call where
  | download (loc : InputPhotoFileLocation)
  | upload (name : String) (bytes : List Nat)
  | sendMedia (toPeer : InputPeerClass) (file : Option InputFile)
      (caption : StyledTextOption)
  | sendText (toPeer : InputPeerClass) (text : String)
deriving DecidableEq, Repr

/-- Whether a call is an upload or a send. -/
def Call.isUploadOrSend : Call → Bool
  | .download _ => false
  | _ => true

/-- The outcomes of the network operations, and the library function
`html.String(nil, ·)` that turns a text with HTML markup into a styled text
option. The outcomes of the two sends are only logged by the code, so they
are not part of the oracle. -/
structure Network where
  stream : InputPhotoFileLocation → Except String (List Nat)
  fromBytes : String → List Nat → Except String InputFile
  htmlString : String → StyledTextOption

/-- The result of `downloadMedia`: the pair `([]byte, error)` it returns and
the network calls it made. -/
structure MediaResult where
  media : List Nat
  err : Option Error
  calls : List Call
deriving DecidableEq, Repr

/-- The loop over `photo.Sizes` in `downloadMedia`, started with `size`. -/
def scanSizes : List PhotoSizeClass → String → String
  | [], size => size
  | .photoSize type _ _ _ :: rest, _ => scanSizes rest type
  | _ :: rest, size => scanSizes rest size

/-- The function `downloadMedia`. -/
def downloadMedia (net : Network) (m : Message) : MediaResult :=
  match m.media with
  | some (.messageMediaPhoto v) =>
    match v.asNotEmpty with
    | none => { media := [], err := none, calls := [] }
    | some photo =>
      let size := scanSizes photo.sizes ""
      if size = "" then
        { media := [], err := some .couldntFindPhotoSize, calls := [] }
      else
        let loc : InputPhotoFileLocation :=
          { id := photo.id, accessHash := photo.accessHash,
            fileReference := photo.fileReference, thumbSize := size }
        match net.stream loc with
        | .error e => { media := [], err := some (.stream e), calls := [.download loc] }
        | .ok buf => { media := buf, err := none, calls := [.download loc] }
  | _ => { media := [], err := none, calls := [] }

/-! ## The forwarding pipeline and the dispatcher handlers -/

/-- The closure `onMessage` of `Run`. It returns nil on every path; the
value here is the list of network calls it issued, in order. -/
def onMessage (net : Network) (forwards : GoMap InputPeerClass) (m : Message) : List Call :=
  match fromPeer m.peerID with
  | .error _ => []
  | .ok fromID =>
    let dl := downloadMedia net m
    if m.message = "" ∧ dl.media.length = 0 then dl.calls
    else
      match forwards.get fromID with
      | none => dl.calls
      | some toPeer =>
        if dl.media.length > 0 then
          let inputFile : Option InputFile :=
            match net.fromBytes "" dl.media with
            | .ok file => some file
            | .error _ => none
          dl.calls ++
            [.upload "" dl.media, .sendMedia toPeer inputFile (net.htmlString m.message)]
        else
          dl.calls ++ [.sendText toPeer m.message]

/-- The handler given to `dispatcher.OnNewMessage`, over the pipeline it
calls: `none` is the early `return nil`, `some r` the outcome `r` of the
pipeline call. -/
def onNewMessage {β : Type} (pipeline : Message → β) (u : MessageClass) : Option β :=
  match u with
  | .message m => some (pipeline m)
  | _ => none

/-- The handler given to `dispatcher.OnNewChannelMessage`, in the same way. -/
def onNewChannelMessage {β : Type} (pipeline : Message → β) (u : MessageClass) : Option β :=
  match u with
  | .message m => if m.out then none else some (pipeline m)
  | _ => none

/-! ## Notions used to state the properties -/

/-- The `Type` of a descriptor when it is a concrete `*tg.PhotoSize`. -/
def PhotoSizeClass.concreteType : PhotoSizeClass → Option String
  | .photoSize type _ _ _ => some type
  | _ => none

/-- The `Type` fields of the concrete descriptors of a size list, in scan
order. -/
def concreteTypes (sizes : List PhotoSizeClass) : List String :=
  sizes.filterMap PhotoSizeClass.concreteType

/-- The file location of a photo for a given thumb size. -/
def Photo.location (photo : Photo) (size : String) : InputPhotoFileLocation :=
  { id := photo.id, accessHash := photo.accessHash,
    fileReference := photo.fileReference, thumbSize := size }

/-- A stand-in for the library's `html.String` on the captions used below:
`<b>hi</b>` is the text `hi` with a bold entity over its two characters, as
in the library; any other text is returned without entities, which is the
library's result for a text without markup. -/
def sampleHtmlString (s : String) : StyledTextOption :=
  if s = "<b>hi</b>" then .styled "hi" [⟨"bold", 0, 2⟩] else .styled s []

/-- A network on which every download yields three bytes and every upload
yields the handle 7. -/
def sampleNetwork : Network :=
  { stream := fun _ => .ok [1, 2, 3], fromBytes := fun _ _ => .ok 7,
    htmlString := sampleHtmlString }

/-- A network on which every download yields three bytes and every upload
fails. -/
def uploadFailingNetwork : Network :=
  { stream := fun _ => .ok [1, 2, 3], fromBytes := fun _ _ => .error "upload failed",
    htmlString := sampleHtmlString }

/-- A photo whose only descriptor is a concrete size with an empty `Type`. -/
def untypedPhoto : Photo :=
  { id := 5, accessHash := 6, fileReference := [7], sizes := [.photoSize "" 90 90 1000] }

/-- A photo with a stripped size and two concrete sizes. -/
def samplePhoto : Photo :=
  { id := 5, accessHash := 6, fileReference := [7],
    sizes := [.photoStrippedSize "i", .photoSize "m" 320 320 1000, .photoSize "x" 800 800 5000,
      .photoSizeProgressive "y"] }

/-- A text message from chat 100. -/
def textMessage : Message :=
  { out := false, peerID := .peerChat 100, message := "hi", media := none }

/-- A captionless photo message from channel 100. -/
def photoMessage : Message :=
  { out := false, peerID := .peerChannel 100, message := "",
    media := some (.messageMediaPhoto (.photo samplePhoto)) }

/-- A photo message from channel 100 whose text carries HTML markup. -/
def markupPhotoMessage : Message :=
  { out := false, peerID := .peerChannel 100, message := "<b>hi</b>",
    media := some (.messageMediaPhoto (.photo samplePhoto)) }

/-- A table sending 100 to the chat peer 200. -/
def sampleTable : GoMap InputPeerClass := [(100, ⟨0, .inputPeerChat 200⟩)]

/-- The kinds `toInputPeer` resolves. -/
def FullChat.resolvable (chat : FullChat) : Prop :=
  chat.typeName = "user" ∨ chat.typeName = "chat" ∨ chat.typeName = "channel"

instance (chat : FullChat) : Decidable chat.resolvable := by
  unfold FullChat.resolvable; infer_instance

/-- A directory with the channel 100, the chat 200 and the user 300. -/
def sampleChats : GoMap FullChat :=
  [(100, ⟨"channel", 100⟩), (200, ⟨"chat", 200⟩), (300, ⟨"user", 300⟩)]

/-- A directory with the chats 100, 200, 300 and 400. -/
def fourChats : GoMap FullChat :=
  [(100, ⟨"chat", 100⟩), (200, ⟨"chat", 200⟩), (300, ⟨"chat", 300⟩), (400, ⟨"chat", 400⟩)]

/-- A dialog listing with the channel 100, the chat 200 and the forbidden
chat 300. -/
def sampleDialogs : List ChatClass := [.channel 100, .chat 200, .chatForbidden 300]

/-- The cache invariant: every cached address was returned by the resolver
call number `addr`, made on the directory entry of its key. -/
def PeersOK (chats : GoMap FullChat) (st : BuildState) : Prop :=
  ∀ k p, st.peers.get k = some p →
    ∃ chat, chats.get k = some chat ∧ toInputPeer p.addr chat = .ok p ∧
      st.calls[p.addr]? = some chat

/-! ## Go maps -/

theorem GoMap.get_erase_self {V : Type} (m : GoMap V) (k : Int) :
    (GoMap.erase m k).get k = none := by
  induction m with
  | nil => rfl
  | cons e m ih =>
    obtain ⟨k', v⟩ := e
    by_cases h : k' = k
    · simp [GoMap.erase, h, ih]
    · simp [GoMap.erase, GoMap.get, h, ih]

theorem GoMap.get_erase_ne {V : Type} (m : GoMap V) {k k' : Int} (hne : k' ≠ k) :
    (GoMap.erase m k).get k' = m.get k' := by
  induction m with
  | nil => rfl
  | cons e m ih =>
    obtain ⟨k0, v⟩ := e
    have hk : ¬ k = k' := fun h => hne h.symm
    by_cases h : k0 = k
    · subst h
      simp [GoMap.erase, GoMap.get, hk, ih]
    · by_cases h2 : k0 = k'
      · subst h2
        simp [GoMap.erase, GoMap.get, h]
      · simp [GoMap.erase, GoMap.get, h, h2, ih]

theorem GoMap.get_set_self {V : Type} (m : GoMap V) (k : Int) (v : V) :
    (m.set k v).get k = some v := by
  simp [GoMap.set, GoMap.get]

theorem GoMap.get_set_ne {V : Type} (m : GoMap V) {k k' : Int} (v : V) (hne : k' ≠ k) :
    (m.set k v).get k' = m.get k' := by
  have h : ¬ k = k' := fun h => hne h.symm
  simp [GoMap.set, GoMap.get, h, GoMap.get_erase_ne m hne]

theorem GoMap.mem_keys_erase {V : Type} (m : GoMap V) (k x : Int) :
    x ∈ GoMap.keys (GoMap.erase m k) ↔ x ∈ GoMap.keys m ∧ x ≠ k := by
  induction m with
  | nil => simp [GoMap.erase, GoMap.keys]
  | cons e m ih =>
    obtain ⟨k0, v⟩ := e
    simp only [GoMap.keys] at ih
    by_cases h : k0 = k
    · simp only [GoMap.erase, h, if_true, GoMap.keys, ih, List.map_cons, List.mem_cons]
      constructor
      · rintro ⟨h1, h2⟩; exact ⟨Or.inr h1, h2⟩
      · rintro ⟨h1 | h1, h2⟩
        · exact absurd h1 h2
        · exact ⟨h1, h2⟩
    · simp only [GoMap.erase, h, if_false, GoMap.keys, List.map_cons, List.mem_cons, ih]
      constructor
      · rintro (h1 | ⟨h1, h2⟩)
        · exact ⟨Or.inl h1, h1 ▸ h⟩
        · exact ⟨Or.inr h1, h2⟩
      · rintro ⟨h1 | h1, h2⟩
        · exact Or.inl h1
        · exact Or.inr ⟨h1, h2⟩

theorem GoMap.nodup_keys_erase {V : Type} (m : GoMap V) (k : Int)
    (hn : (GoMap.keys m).Nodup) : (GoMap.keys (GoMap.erase m k)).Nodup := by
  induction m with
  | nil => simp [GoMap.erase, GoMap.keys]
  | cons e m ih =>
    obtain ⟨k0, v⟩ := e
    have hn' : k0 ∉ GoMap.keys m ∧ (GoMap.keys m).Nodup := by
      simpa [GoMap.keys] using hn
    by_cases h : k0 = k
    · simpa [GoMap.erase, h] using ih hn'.2
    · have hk : k0 ∉ GoMap.keys (GoMap.erase m k) := by
        rw [GoMap.mem_keys_erase]; exact fun h1 => hn'.1 h1.1
      have := ih hn'.2
      simp only [GoMap.erase, h, if_false]
      simp only [GoMap.keys, List.map_cons, List.nodup_cons] at *
      exact ⟨hk, this⟩

theorem GoMap.mem_keys_set {V : Type} (m : GoMap V) (k x : Int) (v : V) :
    x ∈ GoMap.keys (m.set k v) ↔ x = k ∨ x ∈ GoMap.keys m := by
  have h := GoMap.mem_keys_erase m k x
  simp only [GoMap.keys] at h
  simp only [GoMap.set, GoMap.keys, List.map_cons, List.mem_cons, h]
  constructor
  · rintro (h1 | ⟨h1, -⟩)
    · exact Or.inl h1
    · exact Or.inr h1
  · rintro (h1 | h1)
    · exact Or.inl h1
    · by_cases hx : x = k
      · exact Or.inl hx
      · exact Or.inr ⟨h1, hx⟩

theorem GoMap.nodup_keys_set {V : Type} (m : GoMap V) (k : Int) (v : V)
    (hn : (GoMap.keys m).Nodup) : (GoMap.keys (m.set k v)).Nodup := by
  have h1 := GoMap.nodup_keys_erase m k hn
  have h2 : k ∉ GoMap.keys (GoMap.erase m k) := by
    rw [GoMap.mem_keys_erase]; exact fun h => h.2 rfl
  simp only [GoMap.keys] at h1 h2
  simp only [GoMap.set, GoMap.keys, List.map_cons, List.nodup_cons]
  exact ⟨h2, h1⟩

/-! ## The resolver -/

theorem toInputPeer_addr {addr : Nat} {chat : FullChat} {p : InputPeerClass}
    (h : toInputPeer addr chat = .ok p) : p.addr = addr := by
  unfold toInputPeer at h
  split_ifs at h
  · simp only [onlyUser, Except.ok.injEq] at h; rw [← h]
  · simp only [onlyChat, Except.ok.injEq] at h; rw [← h]
  · simp only [onlyChannel, Except.ok.injEq] at h; rw [← h]

theorem toInputPeer_ok_of_resolvable (addr : Nat) {chat : FullChat} (h : chat.resolvable) :
    ∃ p, toInputPeer addr chat = .ok p := by
  unfold toInputPeer
  split_ifs with h1 h2 h3
  · exact ⟨_, rfl⟩
  · exact ⟨_, rfl⟩
  · exact ⟨_, rfl⟩
  · rcases h with h | h | h <;> contradiction

/-! ## The table loop: one iteration -/

theorem forwardStep_ok {chats : GoMap FullChat} {st st' : BuildState} {f : Int × Int}
    (h : forwardStep chats st f = (st', none)) :
    ∃ peer toChat, (∃ c, chats.get (normalizeID f.1) = some c) ∧
      chats.get (normalizeID f.2) = some toChat ∧
      st'.forwards = st.forwards.set (normalizeID f.1) peer ∧
      ((st.peers.get (normalizeID f.2) = some peer ∧ st'.peers = st.peers ∧
          st'.calls = st.calls) ∨
        (st.peers.get (normalizeID f.2) = none ∧
          toInputPeer st.calls.length toChat = .ok peer ∧
          st'.peers = st.peers.set (normalizeID f.2) peer ∧
          st'.calls = st.calls ++ [toChat])) := by
  unfold forwardStep at h
  simp only at h
  cases h1 : chats.get (normalizeID f.1) with
  | none => simp [h1] at h
  | some c =>
    cases h2 : chats.get (normalizeID f.2) with
    | none => simp [h1, h2] at h
    | some toChat =>
      cases h3 : st.peers.get (normalizeID f.2) with
      | some peer =>
        simp only [h1, h2, h3, Prod.mk.injEq, and_true] at h
        subst h
        exact ⟨peer, toChat, ⟨c, rfl⟩, rfl, rfl, Or.inl ⟨rfl, rfl, rfl⟩⟩
      | none =>
        cases h4 : toInputPeer st.calls.length toChat with
        | error e => simp [h1, h2, h3, h4] at h
        | ok peer =>
          simp only [h1, h2, h3, h4, Prod.mk.injEq, and_true] at h
          subst h
          exact ⟨peer, toChat, ⟨c, rfl⟩, rfl, rfl, Or.inr ⟨rfl, h4, rfl, rfl⟩⟩

/-- After an iteration that does not fail, the table entry of the rule's
source is the cache entry of the rule's destination. -/
theorem forwardStep_entry {chats : GoMap FullChat} {st st' : BuildState} {f : Int × Int}
    (h : forwardStep chats st f = (st', none)) :
    ∃ peer, st'.forwards.get (normalizeID f.1) = some peer ∧
      st'.peers.get (normalizeID f.2) = some peer := by
  obtain ⟨peer, toChat, -, -, hf, hc | hc⟩ := forwardStep_ok h
  · exact ⟨peer, by rw [hf, GoMap.get_set_self], by rw [hc.2.1, hc.1]⟩
  · exact ⟨peer, by rw [hf, GoMap.get_set_self], by rw [hc.2.2.1, GoMap.get_set_self]⟩

theorem forwardStep_peers_mono {chats : GoMap FullChat} {st st' : BuildState} {f : Int × Int}
    (h : forwardStep chats st f = (st', none)) {k : Int} {p : InputPeerClass}
    (hp : st.peers.get k = some p) : st'.peers.get k = some p := by
  obtain ⟨peer, toChat, -, -, -, hc | hc⟩ := forwardStep_ok h
  · rw [hc.2.1, hp]
  · have hne : k ≠ normalizeID f.2 := by
      intro hk; rw [hk, hc.1] at hp; cases hp
    rw [hc.2.2.1, GoMap.get_set_ne _ _ hne, hp]

theorem forwardStep_forwards_other {chats : GoMap FullChat} {st st' : BuildState}
    {f : Int × Int} (h : forwardStep chats st f = (st', none)) {k : Int}
    (hk : normalizeID f.1 ≠ k) : st'.forwards.get k = st.forwards.get k := by
  obtain ⟨peer, toChat, -, -, hf, -⟩ := forwardStep_ok h
  rw [hf, GoMap.get_set_ne _ _ (Ne.symm hk)]

/-! ## The table loop: all iterations -/

theorem generateForwards_cons_ok {chats : GoMap FullChat} {f : Int × Int}
    {fs : List (Int × Int)} {st st' : BuildState}
    (h : generateForwards chats (f :: fs) st = (st', none)) :
    ∃ st1, forwardStep chats st f = (st1, none) ∧
      generateForwards chats fs st1 = (st', none) := by
  rw [generateForwards] at h
  rcases hs : forwardStep chats st f with ⟨st1, _ | e⟩
  · rw [hs] at h; exact ⟨st1, rfl, h⟩
  · rw [hs] at h; simp at h

theorem generateForwards_append_ok {chats : GoMap FullChat} {pre post : List (Int × Int)}
    {st st' : BuildState} (h : generateForwards chats (pre ++ post) st = (st', none)) :
    ∃ st1, generateForwards chats pre st = (st1, none) ∧
      generateForwards chats post st1 = (st', none) := by
  induction pre generalizing st with
  | nil => exact ⟨st, rfl, h⟩
  | cons f fs ih =>
    obtain ⟨s1, hs, hrest⟩ := generateForwards_cons_ok (by simpa using h)
    obtain ⟨s2, h2, h3⟩ := ih hrest
    refine ⟨s2, ?_, h3⟩
    rw [generateForwards, hs]
    exact h2

theorem generateForwards_peers_mono {chats : GoMap FullChat} {rules : List (Int × Int)}
    {st st' : BuildState} (h : generateForwards chats rules st = (st', none))
    {k : Int} {p : InputPeerClass} (hp : st.peers.get k = some p) :
    st'.peers.get k = some p := by
  induction rules generalizing st with
  | nil => simp only [generateForwards, Prod.mk.injEq, and_true] at h; subst h; exact hp
  | cons f fs ih =>
    obtain ⟨s1, hs, hrest⟩ := generateForwards_cons_ok h
    exact ih hrest (forwardStep_peers_mono hs hp)

theorem generateForwards_forwards_other {chats : GoMap FullChat} {rules : List (Int × Int)}
    {st st' : BuildState} (h : generateForwards chats rules st = (st', none))
    {k : Int} (hk : ∀ r ∈ rules, normalizeID r.1 ≠ k) :
    st'.forwards.get k = st.forwards.get k := by
  induction rules generalizing st with
  | nil => simp only [generateForwards, Prod.mk.injEq, and_true] at h; subst h; rfl
  | cons f fs ih =>
    obtain ⟨s1, hs, hrest⟩ := generateForwards_cons_ok h
    rw [ih hrest (fun r hr => hk r (List.mem_cons_of_mem _ hr)),
      forwardStep_forwards_other hs (hk f (List.mem_cons_self _ _))]

theorem forwardStep_peersOK {chats : GoMap FullChat} {st st' : BuildState} {f : Int × Int}
    (h : forwardStep chats st f = (st', none)) (inv : PeersOK chats st) :
    PeersOK chats st' := by
  obtain ⟨peer, toChat, -, hto, -, hc | hc⟩ := forwardStep_ok h
  · intro k p hp
    rw [hc.2.1] at hp
    rw [hc.2.2]
    exact inv k p hp
  · obtain ⟨hmiss, hres, hpeers, hcalls⟩ := hc
    intro k p hp
    rw [hpeers] at hp
    rw [hcalls]
    by_cases hk : k = normalizeID f.2
    · subst hk
      rw [GoMap.get_set_self] at hp
      cases hp
      have ha := toInputPeer_addr hres
      refine ⟨toChat, hto, by rw [ha]; exact hres, ?_⟩
      rw [ha]
      simp
    · rw [GoMap.get_set_ne _ _ hk] at hp
      obtain ⟨chat, h1, h2, h3⟩ := inv k p hp
      refine ⟨chat, h1, h2, ?_⟩
      have hlt : p.addr < st.calls.length := by
        by_contra hge
        rw [List.getElem?_eq_none (by omega)] at h3
        cases h3
      rw [List.getElem?_append_left hlt]
      exact h3

theorem generateForwards_peersOK {chats : GoMap FullChat} {rules : List (Int × Int)}
    {st st' : BuildState} (h : generateForwards chats rules st = (st', none))
    (inv : PeersOK chats st) : PeersOK chats st' := by
  induction rules generalizing st with
  | nil => simp only [generateForwards, Prod.mk.injEq, and_true] at h; subst h; exact inv
  | cons f fs ih =>
    obtain ⟨s1, hs, hrest⟩ := generateForwards_cons_ok h
    exact ih hrest (forwardStep_peersOK hs inv)

theorem peersOK_init (chats : GoMap FullChat) : PeersOK chats BuildState.init := by
  intro k p hp
  simp [BuildState.init, GoMap.get] at hp

/-- The entry of the last rule for a source: if no rule after `(s, d)` has
the same normalised source, the finished table maps the source to the cache
entry of the destination. -/
theorem generateForwards_last {chats : GoMap FullChat} {rules pre post : List (Int × Int)}
    {s d : Int} {st st' : BuildState}
    (h : generateForwards chats rules st = (st', none))
    (hrules : rules = pre ++ (s, d) :: post)
    (hlast : ∀ r ∈ post, normalizeID r.1 ≠ normalizeID s) :
    ∃ p, st'.forwards.get (normalizeID s) = some p ∧
      st'.peers.get (normalizeID d) = some p := by
  subst hrules
  obtain ⟨s0, -, h0⟩ := generateForwards_append_ok h
  obtain ⟨s1, hs, hrest⟩ := generateForwards_cons_ok h0
  obtain ⟨p, hf, hp⟩ := forwardStep_entry hs
  exact ⟨p, by rw [generateForwards_forwards_other hrest hlast]; exact hf,
    generateForwards_peers_mono hrest hp⟩

theorem generateForwards_keys {chats : GoMap FullChat} {rules : List (Int × Int)}
    {st st' : BuildState} (h : generateForwards chats rules st = (st', none))
    (hn : (GoMap.keys st.forwards).Nodup) :
    (GoMap.keys st'.forwards).Nodup ∧
      ∀ k, k ∈ GoMap.keys st'.forwards ↔
        k ∈ GoMap.keys st.forwards ∨ ∃ r ∈ rules, normalizeID r.1 = k := by
  induction rules generalizing st with
  | nil =>
    simp only [generateForwards, Prod.mk.injEq, and_true] at h
    subst h
    exact ⟨hn, fun k => by simp⟩
  | cons f fs ih =>
    obtain ⟨s1, hs, hrest⟩ := generateForwards_cons_ok h
    obtain ⟨peer, toChat, -, -, hf, -⟩ := forwardStep_ok hs
    have hn1 : (GoMap.keys s1.forwards).Nodup := by
      rw [hf]; exact GoMap.nodup_keys_set _ _ _ hn
    obtain ⟨h1, h2⟩ := ih hrest hn1
    refine ⟨h1, fun k => ?_⟩
    rw [h2 k, hf, GoMap.mem_keys_set]
    constructor
    · rintro ((hk | hk) | ⟨r, hr, hk⟩)
      · exact Or.inr ⟨f, List.mem_cons_self _ _, hk.symm⟩
      · exact Or.inl hk
      · exact Or.inr ⟨r, List.mem_cons_of_mem _ hr, hk⟩
    · rintro (hk | ⟨r, hr, hk⟩)
      · exact Or.inl (Or.inr hk)
      · rcases List.mem_cons.mp hr with hr | hr
        · subst hr; exact Or.inl (Or.inl hk.symm)
        · exact Or.inr ⟨r, hr, hk⟩

/-- The resolver log: the calls added by the loop are, in order, one call on
the directory entry of each normalised destination that was not cached when
the loop started. -/
theorem generateForwards_calls {chats : GoMap FullChat} {rules : List (Int × Int)}
    {st st' : BuildState} (h : generateForwards chats rules st = (st', none)) :
    ∃ ds : List Int, ds.Nodup ∧
      (∀ d, d ∈ ds ↔ (∃ r ∈ rules, normalizeID r.2 = d) ∧ st.peers.get d = none) ∧
      st'.calls.map some = st.calls.map some ++ ds.map chats.get := by
  induction rules generalizing st with
  | nil =>
    simp only [generateForwards, Prod.mk.injEq, and_true] at h
    subst h
    exact ⟨[], List.nodup_nil, fun d => by simp, by simp⟩
  | cons f fs ih =>
    obtain ⟨s1, hs, hrest⟩ := generateForwards_cons_ok h
    obtain ⟨ds, hnd, hmem, hcalls⟩ := ih hrest
    obtain ⟨peer, toChat, -, hto, -, hc | hc⟩ := forwardStep_ok hs
    · obtain ⟨hhit, hpeers, hsame⟩ := hc
      refine ⟨ds, hnd, fun d => ?_, by rw [hcalls, hsame]⟩
      rw [hmem d, hpeers]
      constructor
      · rintro ⟨⟨r, hr, hd⟩, hnone⟩
        exact ⟨⟨r, List.mem_cons_of_mem _ hr, hd⟩, hnone⟩
      · rintro ⟨⟨r, hr, hd⟩, hnone⟩
        rcases List.mem_cons.mp hr with hr | hr
        · subst hr; rw [← hd, hhit] at hnone; cases hnone
        · exact ⟨⟨r, hr, hd⟩, hnone⟩
    · obtain ⟨hmiss, -, hpeers, hlog⟩ := hc
      have hnot : normalizeID f.2 ∉ ds := by
        intro hin
        have := ((hmem _).mp hin).2
        rw [hpeers, GoMap.get_set_self] at this
        cases this
      refine ⟨normalizeID f.2 :: ds, List.nodup_cons.mpr ⟨hnot, hnd⟩, fun d => ?_, ?_⟩
      · rw [List.mem_cons, hmem d, hpeers]
        constructor
        · rintro (hd | ⟨⟨r, hr, hd⟩, hnone⟩)
          · subst hd
            exact ⟨⟨f, List.mem_cons_self _ _, rfl⟩, hmiss⟩
          · refine ⟨⟨r, List.mem_cons_of_mem _ hr, hd⟩, ?_⟩
            by_cases hdf : d = normalizeID f.2
            · rw [hdf, GoMap.get_set_self] at hnone; cases hnone
            · rwa [GoMap.get_set_ne _ _ hdf] at hnone
        · rintro ⟨⟨r, hr, hd⟩, hnone⟩
          by_cases hdf : d = normalizeID f.2
          · exact Or.inl hdf
          · refine Or.inr ⟨?_, by rw [GoMap.get_set_ne _ _ hdf]; exact hnone⟩
            rcases List.mem_cons.mp hr with hr | hr
            · subst hr; exact absurd hd.symm hdf
            · exact ⟨r, hr, hd⟩
      · rw [hcalls, hlog]
        simp [hto]

/-! ## The table loop: failure and success -/

theorem forwardStep_absent_from {chats : GoMap FullChat} (st : BuildState) {f : Int × Int}
    (h : chats.get (normalizeID f.1) = none) :
    forwardStep chats st f = (st, some (.couldntFindChat (normalizeID f.1))) := by
  unfold forwardStep
  simp [h]

theorem forwardStep_absent_to {chats : GoMap FullChat} (st : BuildState) {f : Int × Int}
    {c : FullChat} (h1 : chats.get (normalizeID f.1) = some c)
    (h2 : chats.get (normalizeID f.2) = none) :
    forwardStep chats st f = (st, some (.couldntFindChat (normalizeID f.2))) := by
  unfold forwardStep
  simp [h1, h2]

theorem forwardStep_present {chats : GoMap FullChat} (st : BuildState) {f : Int × Int}
    {c toChat : FullChat} (h1 : chats.get (normalizeID f.1) = some c)
    (h2 : chats.get (normalizeID f.2) = some toChat) (hr : toChat.resolvable) :
    ∃ st1, forwardStep chats st f = (st1, none) := by
  unfold forwardStep
  simp only [h1, h2]
  cases h3 : st.peers.get (normalizeID f.2) with
  | some peer => exact ⟨_, rfl⟩
  | none =>
    obtain ⟨p, hp⟩ := toInputPeer_ok_of_resolvable st.calls.length hr
    simp only [hp]
    exact ⟨_, rfl⟩

theorem generateForwards_fails {chats : GoMap FullChat} {rules : List (Int × Int)}
    (st : BuildState)
    (hkind : ∀ r ∈ rules, ∀ chat, chats.get (normalizeID r.2) = some chat → chat.resolvable)
    (habs : ∃ r ∈ rules,
      chats.get (normalizeID r.1) = none ∨ chats.get (normalizeID r.2) = none) :
    ∃ id, (generateForwards chats rules st).2 = some (.couldntFindChat id) ∧
      chats.get id = none ∧
      ∃ r ∈ rules, id = normalizeID r.1 ∨ id = normalizeID r.2 := by
  induction rules generalizing st with
  | nil => obtain ⟨r, hr, -⟩ := habs; cases hr
  | cons f fs ih =>
    cases h1 : chats.get (normalizeID f.1) with
    | none =>
      refine ⟨normalizeID f.1, ?_, h1, f, List.mem_cons_self _ _, Or.inl rfl⟩
      rw [generateForwards, forwardStep_absent_from st h1]
    | some c =>
      cases h2 : chats.get (normalizeID f.2) with
      | none =>
        refine ⟨normalizeID f.2, ?_, h2, f, List.mem_cons_self _ _, Or.inr rfl⟩
        rw [generateForwards, forwardStep_absent_to st h1 h2]
      | some toChat =>
        obtain ⟨s1, hs⟩ := forwardStep_present st h1 h2
          (hkind f (List.mem_cons_self _ _) toChat h2)
        have habs' : ∃ r ∈ fs,
            chats.get (normalizeID r.1) = none ∨ chats.get (normalizeID r.2) = none := by
          obtain ⟨r, hr, hra⟩ := habs
          rcases List.mem_cons.mp hr with hr | hr
          · subst hr
            rcases hra with hra | hra
            · rw [h1] at hra; cases hra
            · rw [h2] at hra; cases hra
          · exact ⟨r, hr, hra⟩
        obtain ⟨id, hid, hnone, r, hr, hrid⟩ :=
          ih s1 (fun r hr => hkind r (List.mem_cons_of_mem _ hr)) habs'
        refine ⟨id, ?_, hnone, r, List.mem_cons_of_mem _ hr, hrid⟩
        rw [generateForwards, hs]
        exact hid

theorem generateForwards_succeeds {chats : GoMap FullChat} {rules : List (Int × Int)}
    (st : BuildState)
    (hall : ∀ r ∈ rules, (∃ c, chats.get (normalizeID r.1) = some c) ∧
      ∃ chat, chats.get (normalizeID r.2) = some chat ∧ chat.resolvable) :
    (generateForwards chats rules st).2 = none := by
  induction rules generalizing st with
  | nil => rfl
  | cons f fs ih =>
    obtain ⟨⟨c, h1⟩, toChat, h2, hr⟩ := hall f (List.mem_cons_self _ _)
    obtain ⟨s1, hs⟩ := forwardStep_present st h1 h2 hr
    rw [generateForwards, hs]
    exact ih s1 (fun r hr => hall r (List.mem_cons_of_mem _ hr))

/-! ## The callback of `Run` -/

theorem runSetup_of_ne (chats : GoMap FullChat) {rules : List (Int × Int)}
    (hne : rules ≠ []) :
    (runSetup chats rules).err = (generateForwards chats rules BuildState.init).2 ∧
      (runSetup chats rules).build = (generateForwards chats rules BuildState.init).1 := by
  have hlen : ¬ rules.length = 0 := fun h => hne (List.length_eq_zero.mp h)
  unfold runSetup
  rw [if_neg hlen]
  rcases generateForwards chats rules BuildState.init with ⟨st, _ | e⟩ <;> exact ⟨rfl, rfl⟩

theorem runSetup_handlers (chats : GoMap FullChat) (rules : List (Int × Int)) :
    (runSetup chats rules).handlersRegistered = true ↔ (runSetup chats rules).err = none := by
  unfold runSetup
  split_ifs
  · simp
  · rcases generateForwards chats rules BuildState.init with ⟨st, _ | e⟩ <;> simp

theorem runSetup_ne_nil {chats : GoMap FullChat} {rules : List (Int × Int)}
    (h : (runSetup chats rules).err = none) : rules ≠ [] := by
  intro hnil
  subst hnil
  simp [runSetup] at h

theorem runSetup_ok {chats : GoMap FullChat} {rules : List (Int × Int)}
    (h : (runSetup chats rules).err = none) :
    generateForwards chats rules BuildState.init = ((runSetup chats rules).build, none) := by
  obtain ⟨herr, hbuild⟩ := runSetup_of_ne chats (runSetup_ne_nil h)
  rw [herr] at h
  rw [hbuild, ← h]

/-! ## The directory -/

theorem asFull_resolvable {c : ChatClass} {full : FullChat} (h : c.asFull = some full) :
    full.resolvable := by
  cases c with
  | chat id =>
    simp only [ChatClass.asFull, Option.some.injEq] at h
    subst h
    exact Or.inr (Or.inl rfl)
  | channel id =>
    simp only [ChatClass.asFull, Option.some.injEq] at h
    subst h
    exact Or.inr (Or.inr rfl)
  | chatEmpty id => cases h
  | chatForbidden id => cases h
  | channelForbidden id => cases h

theorem listChats_resolvable (dialogs : List ChatClass) (chats : GoMap FullChat)
    (hchats : ∀ k c, chats.get k = some c → c.resolvable) :
    ∀ k c, (listChats dialogs chats).get k = some c → c.resolvable := by
  induction dialogs generalizing chats with
  | nil => exact hchats
  | cons d ds ih =>
    rw [listChats]
    cases hd : d.asFull with
    | none => exact ih chats hchats
    | some full =>
      refine ih _ (fun k c hk => ?_)
      by_cases hkey : k = full.id
      · rw [hkey, GoMap.get_set_self] at hk
        cases hk
        exact asFull_resolvable hd
      · rw [GoMap.get_set_ne _ _ hkey] at hk
        exact hchats k c hk

/-- Every conversation of the directory has a kind the resolver accepts. -/
theorem directory_resolvable (dialogs : List ChatClass) :
    ∀ k c, (directory dialogs).get k = some c → c.resolvable :=
  listChats_resolvable dialogs [] (fun k c h => by simp [GoMap.get] at h)

/-! ## Properties of the finished table -/

/-- C1 as worded fails: with the rules `(100,200)`, `(100,300)`, `(400,200)`
over a directory holding all four conversations, construction succeeds and
the rules `(100,200)` and `(400,200)` share the destination 200, yet the
table maps 100 to the address resolved for 300 (the later rule for 100 has
overwritten it) and 400 to the one resolved for 200. -/
theorem shared_destination_counterexample :
    (runSetup fourChats [(100, 200), (100, 300), (400, 200)]).err = none ∧
      (runSetup fourChats [(100, 200), (100, 300), (400, 200)]).build.forwards.get
          (normalizeID 100) = some ⟨1, .inputPeerChat 300⟩ ∧
      (runSetup fourChats [(100, 200), (100, 300), (400, 200)]).build.forwards.get
          (normalizeID 400) = some ⟨0, .inputPeerChat 200⟩ := by
  decide

/-- C1, as the code has it: when construction succeeds, any two rules
`(s,d)` and `(s',d')` with the same normalised destination, each the last
rule in input order for its normalised source, have their normalised sources
mapped by the finished table to one and the same address: the object cached
for the destination, returned by the resolver on the directory entry of the
normalised destination. -/
theorem shared_destination_same_address (chats : GoMap FullChat) (rules : List (Int × Int))
    (hok : (runSetup chats rules).err = none)
    (pre post pre' post' : List (Int × Int)) (s d s' d' : Int)
    (h1 : rules = pre ++ (s, d) :: post) (h2 : rules = pre' ++ (s', d') :: post')
    (hd : normalizeID d = normalizeID d')
    (hlast : ∀ r ∈ post, normalizeID r.1 ≠ normalizeID s)
    (hlast' : ∀ r ∈ post', normalizeID r.1 ≠ normalizeID s') :
    ∃ p chat,
      (runSetup chats rules).build.forwards.get (normalizeID s) = some p ∧
      (runSetup chats rules).build.forwards.get (normalizeID s') = some p ∧
      (runSetup chats rules).build.peers.get (normalizeID d) = some p ∧
      chats.get (normalizeID d) = some chat ∧ toInputPeer p.addr chat = .ok p := by
  have hgen := runSetup_ok hok
  obtain ⟨p, hf, hp⟩ := generateForwards_last hgen h1 hlast
  obtain ⟨p', hf', hp'⟩ := generateForwards_last hgen h2 hlast'
  rw [← hd, hp] at hp'
  cases hp'
  obtain ⟨chat, hc, hres, -⟩ :=
    generateForwards_peersOK hgen (peersOK_init chats) _ _ hp
  exact ⟨p, chat, hf, hf', hp, hc, hres⟩

/-- C1 at the rules `(-100,200)`, `(300,-200)` over the directory with the
channel 100, the chat 200 and the user 300: both sources get one address. -/
theorem shared_destination_same_address_witness :
    (runSetup sampleChats [(-100, 200), (300, -200)]).err = none ∧
      normalizeID 200 = normalizeID (-200) ∧
      ∃ p chat,
        (runSetup sampleChats [(-100, 200), (300, -200)]).build.forwards.get
          (normalizeID (-100)) = some p ∧
        (runSetup sampleChats [(-100, 200), (300, -200)]).build.forwards.get
          (normalizeID 300) = some p ∧
        (runSetup sampleChats [(-100, 200), (300, -200)]).build.peers.get
          (normalizeID 200) = some p ∧
        sampleChats.get (normalizeID 200) = some chat ∧ toInputPeer p.addr chat = .ok p :=
  ⟨by decide, by decide,
    shared_destination_same_address sampleChats [(-100, 200), (300, -200)] (by decide)
      [] [(300, -200)] [(-100, 200)] [] (-100) 200 300 (-200) rfl rfl (by decide)
      (by decide) (by decide)⟩

/-- C2: when construction succeeds, the resolver log is, in order, one call
on the directory entry of each member of a duplicate-free list holding
exactly the normalised destinations of the rules; so the number of resolver
calls is the number of distinct normalised destinations. -/
theorem resolver_called_once_per_destination (chats : GoMap FullChat)
    (rules : List (Int × Int)) (hok : (runSetup chats rules).err = none) :
    ∃ ds : List Int, ds.Nodup ∧
      (∀ d, d ∈ ds ↔ ∃ r ∈ rules, normalizeID r.2 = d) ∧
      (runSetup chats rules).build.calls.map some = ds.map chats.get ∧
      (runSetup chats rules).build.calls.length =
        ((rules.map fun r => normalizeID r.2).dedup).length := by
  obtain ⟨ds, hnd, hmem, hcalls⟩ := generateForwards_calls (runSetup_ok hok)
  have hmem' : ∀ d, d ∈ ds ↔ ∃ r ∈ rules, normalizeID r.2 = d := by
    intro d
    rw [hmem d]
    simp [BuildState.init, GoMap.get]
  have hcalls' : (runSetup chats rules).build.calls.map some = ds.map chats.get := by
    simpa [BuildState.init] using hcalls
  refine ⟨ds, hnd, hmem', hcalls', ?_⟩
  have hperm : ds.Perm ((rules.map fun r => normalizeID r.2).dedup) :=
    (List.perm_ext_iff_of_nodup hnd (List.nodup_dedup _)).mpr (fun d => by
      rw [hmem' d, List.mem_dedup, List.mem_map])
  have hlen := congrArg List.length hcalls'
  simp only [List.length_map] at hlen
  rw [hlen, hperm.length_eq]

/-- C2 at the rules `(100,200)`, `(300,200)` over the directory with the
channel 100, the chat 200 and the user 300: a table of two entries, and one
resolver call, on the entry of 200. -/
theorem resolver_called_once_per_destination_witness :
    (runSetup sampleChats [(100, 200), (300, 200)]).err = none ∧
      (runSetup sampleChats [(100, 200), (300, 200)]).build.forwards.length = 2 ∧
      (runSetup sampleChats [(100, 200), (300, 200)]).build.calls = [⟨"chat", 200⟩] ∧
      ∃ ds : List Int, ds.Nodup ∧
        (∀ d, d ∈ ds ↔ ∃ r ∈ [((100 : Int), (200 : Int)), (300, 200)], normalizeID r.2 = d) ∧
        (runSetup sampleChats [(100, 200), (300, 200)]).build.calls.map some =
          ds.map sampleChats.get ∧
        (runSetup sampleChats [(100, 200), (300, 200)]).build.calls.length =
          (([((100 : Int), (200 : Int)), (300, 200)].map fun r => normalizeID r.2).dedup).length :=
  ⟨by decide, by decide, by decide,
    resolver_called_once_per_destination sampleChats [(100, 200), (300, 200)] (by decide)⟩

/-- C3: when construction succeeds, the keys of the finished table are
pairwise distinct and are exactly the normalised sources of the rules, so the
table has as many entries as there are distinct normalised sources; and the
entry of a key is the address cached for the destination of the last rule in
input order with that normalised source, resolved from the directory entry of
that destination. -/
theorem forward_table_last_write_wins (chats : GoMap FullChat) (rules : List (Int × Int))
    (hok : (runSetup chats rules).err = none) :
    (GoMap.keys (runSetup chats rules).build.forwards).Nodup ∧
      (∀ k, k ∈ GoMap.keys (runSetup chats rules).build.forwards ↔
        ∃ r ∈ rules, normalizeID r.1 = k) ∧
      (runSetup chats rules).build.forwards.length =
        ((rules.map fun r => normalizeID r.1).dedup).length ∧
      (∀ (pre post : List (Int × Int)) (s d : Int), rules = pre ++ (s, d) :: post →
        (∀ r ∈ post, normalizeID r.1 ≠ normalizeID s) →
        ∃ p chat,
          (runSetup chats rules).build.forwards.get (normalizeID s) = some p ∧
          (runSetup chats rules).build.peers.get (normalizeID d) = some p ∧
          chats.get (normalizeID d) = some chat ∧ toInputPeer p.addr chat = .ok p) := by
  have hgen := runSetup_ok hok
  obtain ⟨hnd, hmem⟩ := generateForwards_keys hgen
    (by simp [BuildState.init, GoMap.keys])
  have hmem' : ∀ k, k ∈ GoMap.keys (runSetup chats rules).build.forwards ↔
      ∃ r ∈ rules, normalizeID r.1 = k := by
    intro k
    rw [hmem k]
    simp [BuildState.init, GoMap.keys]
  refine ⟨hnd, hmem', ?_, ?_⟩
  · have hperm : (GoMap.keys (runSetup chats rules).build.forwards).Perm
        ((rules.map fun r => normalizeID r.1).dedup) :=
      (List.perm_ext_iff_of_nodup hnd (List.nodup_dedup _)).mpr (fun k => by
        rw [hmem' k, List.mem_dedup, List.mem_map])
    rw [← hperm.length_eq, GoMap.keys, List.length_map]
  · intro pre post s d hrules hlast
    obtain ⟨p, hf, hp⟩ := generateForwards_last hgen hrules hlast
    obtain ⟨chat, hc, hres, -⟩ :=
      generateForwards_peersOK hgen (peersOK_init chats) _ _ hp
    exact ⟨p, chat, hf, hp, hc, hres⟩

/-- C3 at the rules `(100,200)`, `(-100,300)`, `(400,200)`: two entries, and
the entry of 100 is the address resolved for 300, the destination of the last
rule for 100. -/
theorem forward_table_last_write_wins_witness :
    (runSetup fourChats [(100, 200), (-100, 300), (400, 200)]).err = none ∧
      (runSetup fourChats [(100, 200), (-100, 300), (400, 200)]).build.forwards.length = 2 ∧
      (runSetup fourChats [(100, 200), (-100, 300), (400, 200)]).build.forwards.get 100 =
        some ⟨1, .inputPeerChat 300⟩ ∧
      (GoMap.keys (runSetup fourChats [(100, 200), (-100, 300), (400, 200)]).build.forwards).Nodup :=
  ⟨by decide, by decide, by decide,
    (forward_table_last_write_wins fourChats [(100, 200), (-100, 300), (400, 200)]
      (by decide)).1⟩

/-- C4 as worded fails: with the rules `(100,200)`, `(300,200)` over the
directory of a listing where 100 is a channel, 200 a chat and 300 a forbidden
chat (so 300 is not in the directory), construction fails naming 300, but the
entry written for the first rule is still in the table. -/
theorem unknown_conversation_counterexample :
    (directory sampleDialogs).get (normalizeID 300) = none ∧
      (runSetup (directory sampleDialogs) [(100, 200), (300, 200)]).err =
        some (.couldntFindChat 300) ∧
      (runSetup (directory sampleDialogs) [(100, 200), (300, 200)]).build.forwards =
        [(100, ⟨0, .inputPeerChat 200⟩)] := by
  decide

/-- C4, as the code has it: over the directory of any dialog listing, if some
rule has a normalised source or destination that is not in the directory,
`Run` fails with the unknown-conversation error naming a normalised identity
of a rule that is not in the directory, and no handler is registered.
Conversely, over any directory, if every rule has its normalised source and
destination in the directory and every destination has a kind the resolver
accepts, the table loop does not fail, and `Run` does not fail when there is
at least one rule. -/
theorem unknown_conversation_aborts (dialogs : List ChatClass) (rules : List (Int × Int)) :
    ((∃ r ∈ rules, (directory dialogs).get (normalizeID r.1) = none ∨
        (directory dialogs).get (normalizeID r.2) = none) →
      ∃ id, (runSetup (directory dialogs) rules).err = some (.couldntFindChat id) ∧
        (directory dialogs).get id = none ∧
        (∃ r ∈ rules, id = normalizeID r.1 ∨ id = normalizeID r.2) ∧
        (runSetup (directory dialogs) rules).handlersRegistered = false) ∧
    (∀ chats : GoMap FullChat,
      (∀ r ∈ rules, (∃ c, chats.get (normalizeID r.1) = some c) ∧
        ∃ chat, chats.get (normalizeID r.2) = some chat ∧ chat.resolvable) →
      (generateForwards chats rules BuildState.init).2 = none ∧
        (rules ≠ [] → (runSetup chats rules).err = none)) := by
  constructor
  · intro habs
    have hne : rules ≠ [] := by
      rintro rfl
      obtain ⟨r, hr, -⟩ := habs
      cases hr
    obtain ⟨id, herr, hnone, hrule⟩ := generateForwards_fails BuildState.init
      (fun r _ chat hc => directory_resolvable dialogs _ chat hc) habs
    rw [← (runSetup_of_ne _ hne).1] at herr
    refine ⟨id, herr, hnone, hrule, ?_⟩
    have := runSetup_handlers (directory dialogs) rules
    rw [herr] at this
    cases hreg : (runSetup (directory dialogs) rules).handlersRegistered with
    | false => rfl
    | true => exact absurd (this.mp hreg) (by simp)
  · intro chats hall
    have herr := generateForwards_succeeds BuildState.init hall
    exact ⟨herr, fun hne => by rw [(runSetup_of_ne _ hne).1]; exact herr⟩

/-- C4 at the rules `(100,200)`, `(300,200)` over the directory of a listing
where 300 is a forbidden chat: `Run` fails naming an identity that is not in
the directory and no handler is registered. -/
theorem unknown_conversation_aborts_witness :
    ∃ id, (runSetup (directory sampleDialogs) [(100, 200), (300, 200)]).err =
        some (.couldntFindChat id) ∧
      (directory sampleDialogs).get id = none ∧
      (∃ r ∈ [((100 : Int), (200 : Int)), (300, 200)],
        id = normalizeID r.1 ∨ id = normalizeID r.2) ∧
      (runSetup (directory sampleDialogs) [(100, 200), (300, 200)]).handlersRegistered = false :=
  (unknown_conversation_aborts sampleDialogs [(100, 200), (300, 200)]).1
    ⟨(300, 200), by decide, Or.inl (by decide)⟩

/-! ## Normalisation -/

/-- C5: for every `int64` identity `x`, with Go's wrapping negation, the
normalisation of `Run` gives the same result on `x` and on `-x`, and applying
it twice is the same as applying it once. -/
theorem normalizeID_neg_and_idempotent (x : Int) (hx : isInt64 x) :
    normalizeID x = normalizeID (negInt64 x) ∧
      normalizeID (normalizeID x) = normalizeID x := by
  unfold isInt64 at hx
  unfold normalizeID negInt64 wrapInt64
  constructor
  · split_ifs <;> omega
  · split_ifs <;> omega

/-- C5 at the least `int64`, whose negation wraps to itself. -/
theorem normalizeID_neg_and_idempotent_witness :
    isInt64 (-(2 ^ 63)) ∧ negInt64 (-(2 ^ 63)) = -(2 ^ 63) ∧
      normalizeID (-(2 ^ 63)) = normalizeID (negInt64 (-(2 ^ 63))) ∧
      normalizeID (normalizeID (-(2 ^ 63))) = normalizeID (-(2 ^ 63)) :=
  ⟨by decide, by decide, normalizeID_neg_and_idempotent (-(2 ^ 63)) (by decide)⟩

/-! ## Photo selection -/

theorem scanSizes_eq_getLast (sizes : List PhotoSizeClass) (size : String) :
    scanSizes sizes size = ((concreteTypes sizes).getLast?).getD size := by
  induction sizes generalizing size with
  | nil => simp [scanSizes, concreteTypes]
  | cons s rest ih =>
    cases s <;> simp [scanSizes, concreteTypes, PhotoSizeClass.concreteType, ih,
      List.getLast?_cons] at *

theorem downloadMedia_photo_eq (net : Network) (m : Message) (photo : Photo)
    (hm : m.media = some (.messageMediaPhoto (.photo photo))) :
    downloadMedia net m =
      if scanSizes photo.sizes "" = "" then
        { media := [], err := some .couldntFindPhotoSize, calls := [] }
      else
        match net.stream (photo.location (scanSizes photo.sizes "")) with
        | .error e =>
          { media := [], err := some (.stream e),
            calls := [.download (photo.location (scanSizes photo.sizes ""))] }
        | .ok buf =>
          { media := buf, err := none,
            calls := [.download (photo.location (scanSizes photo.sizes ""))] } := by
  simp only [downloadMedia, hm, PhotoClass.asNotEmpty, Photo.location]

/-- Every call made by `downloadMedia` is a download. -/
theorem downloadMedia_calls (net : Network) (m : Message) :
    ∀ c ∈ (downloadMedia net m).calls, c.isUploadOrSend = false := by
  intro c hc
  unfold downloadMedia at hc
  split at hc
  · split at hc
    · simp at hc
    · dsimp only at hc
      split_ifs at hc
      · simp at hc
      · split at hc <;> simp at hc <;> subst hc <;> rfl
  · simp at hc

/-- C10, as the code has it: for a message carrying a non-empty photo,
`downloadMedia` requests the download with the thumb size equal to the `Type`
of the last concrete descriptor in scan order whenever that `Type` is not the
empty string, returning the streamed bytes or the stream's error; it fails
with the no-size error, without any download, exactly when no descriptor is
concrete or the last concrete one has an empty `Type`. A message with no
attachment, another kind of attachment or an empty photo yields no media, no
error and no download. -/
theorem downloadMedia_spec (net : Network) (m : Message) :
    (∀ photo, m.media = some (.messageMediaPhoto (.photo photo)) →
      (∀ t, (concreteTypes photo.sizes).getLast? = some t → t ≠ "" →
        (downloadMedia net m).calls = [.download (photo.location t)] ∧
        (∀ buf, net.stream (photo.location t) = .ok buf →
          (downloadMedia net m).media = buf ∧ (downloadMedia net m).err = none) ∧
        (∀ e, net.stream (photo.location t) = .error e →
          (downloadMedia net m).media = [] ∧ (downloadMedia net m).err = some (.stream e))) ∧
      ((downloadMedia net m).err = some .couldntFindPhotoSize ↔
        ((concreteTypes photo.sizes).getLast? = none ∨
          (concreteTypes photo.sizes).getLast? = some "")) ∧
      ((downloadMedia net m).err = some .couldntFindPhotoSize →
        (downloadMedia net m).calls = [] ∧ (downloadMedia net m).media = [])) ∧
    ((m.media = none ∨ m.media = some .otherMedia ∨
        ∃ id, m.media = some (.messageMediaPhoto (.photoEmpty id))) →
      downloadMedia net m = { media := [], err := none, calls := [] }) := by
  refine ⟨fun photo hm => ?_, ?_⟩
  · rw [downloadMedia_photo_eq net m photo hm, scanSizes_eq_getLast]
    refine ⟨fun t ht hne => ?_, ?_, ?_⟩
    · simp only [ht, Option.getD_some, if_neg hne]
      refine ⟨?_, fun buf hb => ?_, fun e he => ?_⟩
      · cases net.stream (photo.location t) <;> rfl
      · simp [hb]
      · simp [he]
    · cases hl : (concreteTypes photo.sizes).getLast? with
      | none => simp
      | some t =>
        by_cases ht : t = ""
        · simp [ht]
        · simp only [Option.getD_some, if_neg ht]
          cases net.stream (photo.location t) <;> simp [ht]
    · cases hl : (concreteTypes photo.sizes).getLast? with
      | none => simp
      | some t =>
        by_cases ht : t = ""
        · simp [ht]
        · simp only [Option.getD_some, if_neg ht]
          cases net.stream (photo.location t) <;> simp
  · rintro (h | h | ⟨id, h⟩) <;> simp [downloadMedia, h, PhotoClass.asNotEmpty]

/-- C10 as worded fails: a photo whose only descriptor is a concrete size
with an empty `Type` has a concrete descriptor, yet `downloadMedia` returns
the no-size error and requests no download. -/
theorem downloadMedia_untyped_counterexample :
    (∃ s ∈ untypedPhoto.sizes, s.concreteType ≠ none) ∧
      (downloadMedia sampleNetwork
        { out := false, peerID := .peerChat 100, message := "",
          media := some (.messageMediaPhoto (.photo untypedPhoto)) }) =
        { media := [], err := some .couldntFindPhotoSize, calls := [] } := by
  decide

/-- C10 at a photo with sizes `i` (stripped), `m`, `x` (concrete) and `y`
(progressive): the download is requested with thumb size `x`. -/
theorem downloadMedia_spec_witness :
    (concreteTypes samplePhoto.sizes).getLast? = some "x" ∧
      (downloadMedia sampleNetwork photoMessage).calls =
        [.download (samplePhoto.location "x")] :=
  ⟨by decide,
    ((downloadMedia_spec sampleNetwork photoMessage).1 samplePhoto rfl).1 "x"
      (by decide) (by decide) |>.1⟩

/-! ## The forwarding pipeline -/

theorem filter_downloadMedia_calls (net : Network) (m : Message) :
    (downloadMedia net m).calls.filter Call.isUploadOrSend = [] := by
  rw [List.filter_eq_nil_iff]
  intro c hc
  simp [downloadMedia_calls net m c hc]

/-- C6: `onMessage` issues no upload and no send when the message has empty
text and an empty media result, and then its calls are the same whatever the
forward table is (the table is not consulted); it issues no upload and no
send either when the source identity has no entry in the table, or when the
peer is not recognised. -/
theorem onMessage_drops (net : Network) (forwards : GoMap InputPeerClass) (m : Message) :
    (m.message = "" → (downloadMedia net m).media = [] →
      (∀ c ∈ onMessage net forwards m, c.isUploadOrSend = false) ∧
      (∀ other : GoMap InputPeerClass, onMessage net other m = onMessage net forwards m)) ∧
    (∀ fromID, fromPeer m.peerID = .ok fromID → forwards.get fromID = none →
      ∀ c ∈ onMessage net forwards m, c.isUploadOrSend = false) ∧
    (∀ e, fromPeer m.peerID = .error e → onMessage net forwards m = []) := by
  refine ⟨fun ht hm => ?_, fun fromID hp hf => ?_, fun e hp => ?_⟩
  · have key : ∀ t : GoMap InputPeerClass, onMessage net t m =
        match fromPeer m.peerID with
        | .error _ => []
        | .ok _ => (downloadMedia net m).calls := by
      intro t
      unfold onMessage
      cases fromPeer m.peerID with
      | error e => rfl
      | ok id => simp [ht, hm]
    refine ⟨fun c hc => ?_, fun other => by rw [key other, key forwards]⟩
    rw [key forwards] at hc
    cases hp : fromPeer m.peerID with
    | error e => simp [hp] at hc
    | ok id =>
      simp only [hp] at hc
      exact downloadMedia_calls net m c hc
  · intro c hc
    unfold onMessage at hc
    simp only [hp, hf] at hc
    split_ifs at hc <;> exact downloadMedia_calls net m c hc
  · unfold onMessage
    simp [hp]

/-- C7: for a message with a recognised peer, non-empty text and an empty
media result whose source has a table entry, the calls of `onMessage` are
those of the download attempt followed by one text send to the table entry
with the text unchanged; so its uploads and sends are exactly that one text
send. -/
theorem onMessage_text (net : Network) (forwards : GoMap InputPeerClass) (m : Message)
    (fromID : Int) (toPeer : InputPeerClass)
    (hp : fromPeer m.peerID = .ok fromID) (ht : m.message ≠ "")
    (hm : (downloadMedia net m).media = []) (hf : forwards.get fromID = some toPeer) :
    onMessage net forwards m = (downloadMedia net m).calls ++ [.sendText toPeer m.message] ∧
      (onMessage net forwards m).filter Call.isUploadOrSend =
        [.sendText toPeer m.message] := by
  have h : onMessage net forwards m =
      (downloadMedia net m).calls ++ [.sendText toPeer m.message] := by
    unfold onMessage
    simp [hp, ht, hm, hf]
  refine ⟨h, ?_⟩
  rw [h, List.filter_append, filter_downloadMedia_calls]
  rfl

/-- C7 at the text message "hi" from chat 100, with 100 routed to chat 200:
one text send and nothing else. -/
theorem onMessage_text_witness :
    fromPeer textMessage.peerID = .ok 100 ∧ textMessage.message ≠ "" ∧
      (downloadMedia sampleNetwork textMessage).media = [] ∧
      sampleTable.get 100 = some ⟨0, .inputPeerChat 200⟩ ∧
      onMessage sampleNetwork sampleTable textMessage =
        [.sendText ⟨0, .inputPeerChat 200⟩ "hi"] :=
  ⟨rfl, by decide, rfl, rfl,
    (onMessage_text sampleNetwork sampleTable textMessage 100 ⟨0, .inputPeerChat 200⟩
      rfl (by decide) rfl rfl).1⟩

/-- C8 as worded fails: for a photo message from channel 100 with the text
`<b>hi</b>`, on a network where `html.String` gives that text its library
value, the caption of the media send is the text `hi` with a bold entity, not
the message text. -/
theorem onMessage_media_counterexample :
    markupPhotoMessage.message = "<b>hi</b>" ∧
      sampleNetwork.htmlString "<b>hi</b>" = .styled "hi" [⟨"bold", 0, 2⟩] ∧
      (onMessage sampleNetwork sampleTable markupPhotoMessage).filter Call.isUploadOrSend =
        [.upload "" [1, 2, 3],
          .sendMedia ⟨0, .inputPeerChat 200⟩ (some 7) (.styled "hi" [⟨"bold", 0, 2⟩])] := by
  decide

/-- C8, as the code has it: for a message with a recognised peer and a
non-empty media result, whatever its text, whose source has a table entry,
the calls of `onMessage` are those of the download followed by one upload of
the extracted bytes and then one media send to the table entry whose caption
is `html.String` of the message text; so its uploads and sends are exactly
these two, with no text send, and the media send is issued (with no file)
when the upload fails. -/
theorem onMessage_media (net : Network) (forwards : GoMap InputPeerClass) (m : Message)
    (fromID : Int) (toPeer : InputPeerClass)
    (hp : fromPeer m.peerID = .ok fromID)
    (hm : (downloadMedia net m).media ≠ []) (hf : forwards.get fromID = some toPeer) :
    (∃ file, onMessage net forwards m =
        (downloadMedia net m).calls ++
          [.upload "" (downloadMedia net m).media,
            .sendMedia toPeer file (net.htmlString m.message)] ∧
      (onMessage net forwards m).filter Call.isUploadOrSend =
        [.upload "" (downloadMedia net m).media,
          .sendMedia toPeer file (net.htmlString m.message)] ∧
      (∀ f, net.fromBytes "" (downloadMedia net m).media = .ok f → file = some f) ∧
      (∀ e, net.fromBytes "" (downloadMedia net m).media = .error e → file = none)) := by
  have hlen : 0 < (downloadMedia net m).media.length := List.length_pos.mpr hm
  have hne : ¬ (m.message = "" ∧ (downloadMedia net m).media.length = 0) := by
    intro h; omega
  refine ⟨match net.fromBytes "" (downloadMedia net m).media with
    | .ok file => some file
    | .error _ => none, ?_, ?_, ?_, ?_⟩
  · unfold onMessage
    simp only [hp, hf, if_neg hne, if_pos hlen, gt_iff_lt]
  · unfold onMessage
    simp only [hp, hf, if_neg hne, if_pos hlen, gt_iff_lt]
    rw [List.filter_append, filter_downloadMedia_calls]
    rfl
  · intro f h; simp [h]
  · intro e h; simp [h]

/-- C8 at a captionless photo message from channel 100 on a network whose
uploads fail: one upload of the three downloaded bytes, then one media send
to the table entry with no file and the caption made from the empty text. -/
theorem onMessage_media_witness :
    fromPeer photoMessage.peerID = .ok 100 ∧
      (downloadMedia uploadFailingNetwork photoMessage).media ≠ [] ∧
      sampleTable.get 100 = some ⟨0, .inputPeerChat 200⟩ ∧
      (onMessage uploadFailingNetwork sampleTable photoMessage).filter Call.isUploadOrSend =
        [.upload "" [1, 2, 3], .sendMedia ⟨0, .inputPeerChat 200⟩ none (.styled "" [])] := by
  refine ⟨rfl, by decide, rfl, ?_⟩
  obtain ⟨file, -, h, -, hnone⟩ :=
    onMessage_media uploadFailingNetwork sampleTable photoMessage 100 ⟨0, .inputPeerChat 200⟩
      rfl (by decide) rfl
  rw [h, hnone "upload failed" rfl]
  rfl

/-! ## The dispatcher handlers -/

/-- C9: a standard message reaches the pipeline from the channel handler if
and only if its outgoing flag is false, and always from the plain-chat
handler; a payload that is not a standard message never reaches the pipeline
from either handler. -/
theorem handlers_admission {β : Type} (pipeline : Message → β) :
    (∀ m : Message,
      (onNewChannelMessage pipeline (.message m) = some (pipeline m) ↔ m.out = false) ∧
      (m.out = true → onNewChannelMessage pipeline (.message m) = none) ∧
      onNewMessage pipeline (.message m) = some (pipeline m)) ∧
    (∀ u : MessageClass, (∀ m, u ≠ .message m) →
      onNewMessage pipeline u = none ∧ onNewChannelMessage pipeline u = none) := by
  refine ⟨fun m => ⟨?_, ?_, rfl⟩, fun u hu => ?_⟩
  · unfold onNewChannelMessage
    cases h : m.out <;> simp [h]
  · intro h
    unfold onNewChannelMessage
    simp [h]
  · cases u with
    | message m => exact absurd rfl (hu m)
    | messageEmpty => exact ⟨rfl, rfl⟩
    | messageService => exact ⟨rfl, rfl⟩

end Tgfwd
